import Mathlib

/-!
Shallow embedding of `src/tldextract/tldextract.py` (TylerLubeck/tldextract).

Strings are modelled by Lean `String`.  The Python string operations the
source uses -- `str.split('.')`, `'.'.join`, `str.rpartition('.')`,
`str.split('@')[-1]`, `str.partition(':')[0]`, `str.partition('/')[0]`,
`SCHEME_RE.sub` -- are implemented below as executable char-list recursions.
Clock and file-modification times are modelled by `Int` (the source uses
Python floats; every claim involves only integral arithmetic on them).
Rule sets are modelled by `List String`: the source keeps a `frozenset` of
rule strings, whose only observable operation in the extractor is `in`
(membership), so duplicates and order in the list are irrelevant.
-/

/-! ## Python string helpers -/

/-- Python `s.split('.')` on the character list: split on every dot keeping
empty pieces; the empty string yields one empty piece. -/
def splitDotChars : List Char → List (List Char)
  | [] => [[]]
  | c :: rest =>
    let r := splitDotChars rest
    if c = '.' then [] :: r
    else
      match r with
      | [] => [[c]]
      | piece :: more => (c :: piece) :: more

/-- Python `'.'.join` on character lists. -/
def joinDotChars : List (List Char) → List Char
  | [] => []
  | [piece] => piece
  | piece :: more => piece ++ '.' :: joinDotChars more

/-- Python `netloc.split('.')`, at `String` level. -/
def pySplitDot (s : String) : List String :=
  (splitDotChars s.data).map String.mk

/-- Python `'.'.join(parts)`, at `String` level. -/
def pyJoinDot (parts : List String) : String :=
  String.mk (joinDotChars (parts.map String.data))

/-- Split a character list at the last occurrence of `sep`: `some (a, b)` with
the list equal to `a ++ sep :: b` and `sep ∉ b`, or `none` when `sep` does not
occur. -/
def splitLastOn (sep : Char) : List Char → Option (List Char × List Char)
  | [] => none
  | c :: rest =>
    match splitLastOn sep rest with
    | some (a, b) => some (c :: a, b)
    | none => if c = sep then some ([], rest) else none

/-- Python `s.rpartition('.')`, keeping the first and last components only
(the middle component is discarded by `_extract`, line 139): the part before
the last dot and the part after it, and `("", s)` when `s` holds no dot. -/
def rpartitionDot (s : String) : String × String :=
  match splitLastOn '.' s.data with
  | some (a, b) => (String.mk a, String.mk b)
  | none => ("", s)

/-- Python `s.split('@')[-1]` (line 127): the substring after the last `@`,
or the whole string when there is none. -/
def afterLastAt (s : String) : String :=
  match splitLastOn '@' s.data with
  | some (_, b) => String.mk b
  | none => s

/-- Take the characters strictly before the first occurrence of `sep`. -/
def takeUntilChar (sep : Char) : List Char → List Char
  | [] => []
  | c :: rest => if c = sep then [] else c :: takeUntilChar sep rest

/-- Python `s.partition(':')[0]` (line 127). -/
def beforeFirstColon (s : String) : String :=
  String.mk (takeUntilChar ':' s.data)

/-- Python `s.partition('/')[0]` (line 123). -/
def beforeFirstSlash (s : String) : String :=
  String.mk (takeUntilChar '/' s.data)

/-- Line 127: `netloc.split("@")[-1].partition(':')[0]` -- strip credentials
and a trailing port from the netloc. -/
def stripHost (netloc0 : String) : String :=
  beforeFirstColon (afterLastAt netloc0)

/-- Membership of `urlparse.scheme_chars` (ASCII letters, digits, `+`, `-`,
`.`), used by `SCHEME_RE` (line 41). -/
def isSchemeChar (c : Char) : Bool :=
  c.isAlpha || c.isDigit || c = '+' || c = '-' || c = '.'

/-- Line 123, `SCHEME_RE.sub("", url)` with `SCHEME_RE = ^([scheme]+:)?//`:
remove the anchored match when it exists.  Since `:` is not a scheme
character, the optional group can only match the maximal scheme-character run
followed by `:`, so the regex is equivalent to this direct test. -/
def stripScheme (url : String) : String :=
  let d := url.data
  if d.take 2 = ['/', '/'] then String.mk (d.drop 2)
  else
    let run := d.takeWhile isSchemeChar
    if run ≠ [] ∧ (d.drop run.length).take 3 = [':', '/', '/'] then
      String.mk (d.drop (run.length + 3))
    else url

/-- Line 123: `SCHEME_RE.sub("", url).partition("/")[0]`. -/
def urlNetloc (url : String) : String :=
  beforeFirstSlash (stripScheme url)

/-! ## The suffix matcher (`_PublicSuffixListTLDExtractor.extract`, lines 226-238) -/

/-- Rule sets: the `frozenset` of PSL rule strings, membership only. -/
abbrev RuleSet := List String

/-- Lines 228-238, the matching loop.  The Python loop walks an index `i`
over `spl = netloc.split('.')`; here the index is represented as a list
zipper: `pre = spl[:i]` and the second list argument is `spl[i:]`, so the
recursion is structural.  `maybe_tld = '.'.join(spl[i:])`,
`exception_tld = '!' + maybe_tld`, `wildcard_tld = '*.' + '.'.join(spl[i+1:])`
are inlined at their use sites. -/
def pslExtractLoop (tlds : RuleSet) (netloc : String) :
    List String → List String → String × String
  | _, [] => (netloc, "")
  | pre, lbl :: rest =>
    if ("!" ++ pyJoinDot (lbl :: rest)) ∈ tlds then
      (pyJoinDot (pre ++ [lbl]), pyJoinDot rest)
    else if ("*." ++ pyJoinDot rest) ∈ tlds ∨ pyJoinDot (lbl :: rest) ∈ tlds then
      (pyJoinDot pre, pyJoinDot (lbl :: rest))
    else
      pslExtractLoop tlds netloc (pre ++ [lbl]) rest

/-- `_PublicSuffixListTLDExtractor.extract(netloc)` (lines 226-238): returns
the pair `(registered_domain, tld)`. -/
def publicSuffixListExtract (tlds : RuleSet) (netloc : String) : String × String :=
  pslExtractLoop tlds netloc [] (pySplitDot netloc)

/-! ## IP-literal recognition (lines 42 and 129-137) -/

/-- One octet alternative of `IP_RE` (line 42):
`[0-9]|[1-9][0-9]|1[0-9]{2}|2[0-4][0-9]|25[0-5]`. -/
def isOctetChars : List Char → Bool
  | [a] => a.isDigit
  | [a, b] => (decide ('1' ≤ a) && decide (a ≤ '9')) && b.isDigit
  | [a, b, c] =>
      (decide (a = '1') && b.isDigit && c.isDigit) ||
      (decide (a = '2') && decide ('0' ≤ b) && decide (b ≤ '4') && c.isDigit) ||
      (decide (a = '2') && decide (b = '5') && decide ('0' ≤ c) && decide (c ≤ '5'))
  | _ => false

/-- Exactly four dot-separated `IP_RE` octets.  Octets hold no dot, so this
split-based test coincides with the sequential regex
`^(octet\.){3}octet$`. -/
def isFourOctets (s : String) : Bool :=
  match splitDotChars s.data with
  | [a, b, c, d] => isOctetChars a && isOctetChars b && isOctetChars c && isOctetChars d
  | _ => false

/-- `IP_RE.match(netloc)` truthiness (line 134).  Python `$` also matches
just before a single trailing newline, hence the second disjunct. -/
def ipReMatch (s : String) : Bool :=
  isFourOctets s ||
    (match s.data.getLast? with
     | some c => decide (c = '\n') && isFourOctets (String.mk s.data.dropLast)
     | none => false)

/-- C-numeral digit value in the given base (10, 8 or 16). -/
def digitVal (base : Nat) (c : Char) : Option Nat :=
  if base = 16 then
    if c.isDigit then some (c.toNat - 48)
    else if decide ('a' ≤ c) && decide (c ≤ 'f') then some (c.toNat - 97 + 10)
    else if decide ('A' ≤ c) && decide (c ≤ 'F') then some (c.toNat - 65 + 10)
    else none
  else if base = 8 then
    if decide ('0' ≤ c) && decide (c ≤ '7') then some (c.toNat - 48) else none
  else
    if c.isDigit then some (c.toNat - 48) else none

/-- Consume a maximal run of base-`base` digits, accumulating their value. -/
def parseDigits (base : Nat) : Nat → List Char → Nat × List Char
  | acc, [] => (acc, [])
  | acc, c :: rest =>
    match digitVal base c with
    | some v => parseDigits base (acc * base + v) rest
    | none => (acc, c :: rest)

/-- Parse one dotted component the way the C library `inet_aton` does: it
must begin with a decimal digit; a leading `0x`/`0X` selects base 16, a
leading `0` base 8, otherwise base 10.  (A degenerate `0x` with no following
hex digit is rejected here; the per-component digit flag of the C routine differs
on such inputs, and no theorem below depends on them.) -/
def parseAtonPart : List Char → Option (Nat × List Char)
  | [] => none
  | c :: rest =>
    if c = '0' then
      match rest with
      | x :: r2 =>
        if x = 'x' || x = 'X' then
          match r2 with
          | d :: _ =>
            match digitVal 16 d with
            | some _ => some (parseDigits 16 0 r2)
            | none => none
          | [] => none
        else some (parseDigits 8 0 rest)
      | [] => some (0, [])
    else if c.isDigit then
      some (parseDigits 10 (c.toNat - 48) rest)
    else none

/-- The whitespace class tolerated by `inet_aton` after the numeric text. -/
def isSpaceChar (c : Char) : Bool :=
  decide (c = ' ') || decide (c = '\t') || decide (c = '\n') || decide (c = '\r') ||
    decide (c.toNat = 11) || decide (c.toNat = 12)

/-- Main loop of `inet_aton`: at most four components; every component
stored at a dot must be at most 255; the final component is bounded by the
bytes left (`remaining` counts the dots still allowed, starting at 3).
A trailing run starting with whitespace is tolerated; any other trailing
character rejects the string. -/
def inetAtonLoop : Nat → List Char → Bool
  | remaining, cs =>
    match parseAtonPart cs with
    | none => false
    | some (v, rest) =>
      match rest with
      | '.' :: r2 =>
        match remaining with
        | 0 => false
        | r + 1 => if v > 255 then false else inetAtonLoop r r2
      | c :: _ => isSpaceChar c && decide (v < 2 ^ (8 * (remaining + 1)))
      | [] => decide (v < 2 ^ (8 * (remaining + 1)))

/-- Python 2 `socket.inet_aton(netloc)` succeeding (line 131), modelled after
the C library routine the interpreter wraps: 1 to 4 dot-separated C numerals
(decimal, octal or hex) with positional range checks. -/
def inetAton (s : String) : Bool :=
  inetAtonLoop 3 s.data

/-! ## `ExtractResult` and the extractor facade (lines 44-140) -/

/-- The `ExtractResult` namedtuple (lines 44-82): the triple
`(subdomain, domain, tld)`. -/
structure ExtractResult where
  subdomain : String
  domain : String
  tld : String
deriving DecidableEq

/-- Python `netloc and netloc[0].isdigit()` (line 129). -/
def firstIsDigit (s : String) : Bool :=
  match s.data with
  | [] => false
  | c :: _ => c.isDigit

/-- Lines 139-140: `subdomain, _, domain = registered_domain.rpartition('.')`
then `ExtractResult(subdomain, domain, tld)`. -/
def rpartitionResult (registered_domain tld : String) : ExtractResult :=
  { subdomain := (rpartitionDot registered_domain).1
    domain := (rpartitionDot registered_domain).2
    tld := tld }

/-- The non-IP result of `_extract` on a raw netloc: matcher output split by
`rpartition('.')`. -/
def rpartitionTriple (tlds : RuleSet) (netloc0 : String) : ExtractResult :=
  rpartitionResult (publicSuffixListExtract tlds (stripHost netloc0)).1
    (publicSuffixListExtract tlds (stripHost netloc0)).2

/-- `TLDExtract._extract(netloc)` (lines 126-140), with the resolved rule set
passed explicitly (the source obtains it from `_get_tld_extractor()`, modelled
separately below) and the platform abstracted by `hasInetAton`: when
`socket.inet_aton` exists the `try` branch decides the IP short-circuit (a
`socket.error` falls through via `pass`); when it raises `AttributeError`,
`IP_RE.match` decides it. -/
def TLDExtract_extract (hasInetAton : Bool) (tlds : RuleSet) (netloc0 : String) :
    ExtractResult :=
  if (publicSuffixListExtract tlds (stripHost netloc0)).2 = "" ∧
      stripHost netloc0 ≠ "" ∧ firstIsDigit (stripHost netloc0) = true then
    if hasInetAton then
      if inetAton (stripHost netloc0) then
        { subdomain := "", domain := stripHost netloc0, tld := "" }
      else rpartitionTriple tlds netloc0
    else
      if ipReMatch (stripHost netloc0) then
        { subdomain := "", domain := stripHost netloc0, tld := "" }
      else rpartitionTriple tlds netloc0
  else rpartitionTriple tlds netloc0

/-- `TLDExtract.__call__(url)` (lines 112-124), given the resolved rule set. -/
def TLDExtract_call (hasInetAton : Bool) (tlds : RuleSet) (url : String) :
    ExtractResult :=
  TLDExtract_extract hasInetAton tlds (urlNetloc url)

/-! ## Instance state, construction, expiry and rule-set resolution
(lines 84-110, 142-195) -/

/-- The mutable fields of a `TLDExtract` instance.  The cache-file path is
not carried: its only observable effect (which file the resolution probes)
is represented by `ResolutionEnv` below. -/
structure TLDExtractState where
  fetch : Bool
  cache_file_mtime : Int
  cache_ttl_sec : Int
  extractor : Option RuleSet
deriving DecidableEq

/-- `TLDExtract.__init__` (lines 85-110): clamp the TTL at 0
(`max(cache_ttl_sec, 0)`, line 106), then raise `ValueError` when fetch is
disabled and the clamped TTL is truthy (lines 109-110). -/
def TLDExtract_init (fetch : Bool) (cache_ttl_sec : Int) :
    Except Unit TLDExtractState :=
  let ttl := max cache_ttl_sec 0
  if fetch = false ∧ ttl ≠ 0 then Except.error ()
  else Except.ok { fetch := fetch, cache_file_mtime := 0, cache_ttl_sec := ttl,
                   extractor := none }

/-- The `TLDExtract.expired` property (lines 142-148), with Python numeric
truthiness (`x and y` is falsy as soon as one conjunct is `0`). -/
def TLDExtract_expired (st : TLDExtractState) (now : Int) : Bool :=
  decide (st.cache_ttl_sec ≠ 0) && decide (st.cache_file_mtime ≠ 0) && st.fetch &&
    decide (now - st.cache_file_mtime > st.cache_ttl_sec)

/-- Outcome of `open(cached_file)` followed by `pickle.load(f)` on the cache
file (lines 160-161): success carrying the unpickled rule set, an `IOError`
(unreadable file), or any non-`IOError` deserialization exception (corrupt
content, e.g. `pickle.UnpicklingError`). -/
inductive CacheLoad where
  | ok (rules : RuleSet)
  | ioError
  | pickleError
deriving DecidableEq

/-- The view one resolution has of the outside world: `os.path.exists` and
`os.path.getmtime` on the cache file, the cache-file read, the tokenized
result of `_PublicSuffixListSource()` (empty when `_fetch_page` logged a
network error, lines 208-220), the unpickled bundled snapshot
(`.tld_set_snapshot`), and `time.time()`.  The cache write (lines 187-191)
has no effect on the returned value -- a write failure is only logged -- so
it is not represented. -/
structure ResolutionEnv where
  cacheFileExists : Bool
  cacheFileMtime : Int
  cacheLoad : CacheLoad
  fetchResult : RuleSet
  snapshotRules : RuleSet
  now : Int
deriving DecidableEq

/-- Lines 167-195 of `_get_tld_extractor`: fetch when enabled
(`tlds = frozenset(...)`, empty when fetch is disabled); an empty result
falls back to the bundled snapshot (lines 172-176); otherwise the fetched
set is memoized (lines 193-195).  Both exits set `cache_file_mtime` to
`time.time()`. -/
def fetchOrSnapshot (st : TLDExtractState) (env : ResolutionEnv) :
    RuleSet × TLDExtractState :=
  let tlds := if st.fetch then env.fetchResult else []
  if tlds.isEmpty then
    (env.snapshotRules,
      { st with cache_file_mtime := env.now, extractor := some env.snapshotRules })
  else
    (tlds, { st with cache_file_mtime := env.now, extractor := some tlds })

/-- Lines 154-176: probe the cache file.  When it exists, record its mtime
(line 157); when additionally not expired, unpickle it and memoize the result
(lines 158-162).  Only `IOError` is caught (lines 163-165, logged at error
level, mtime reset to 0, falling through); any other load exception
propagates. -/
def resolveFresh (st : TLDExtractState) (env : ResolutionEnv) :
    Except Unit (RuleSet × TLDExtractState) :=
  if env.cacheFileExists then
    let st1 := { st with cache_file_mtime := env.cacheFileMtime }
    if TLDExtract_expired st1 env.now then Except.ok (fetchOrSnapshot st1 env)
    else
      match env.cacheLoad with
      | CacheLoad.ok rules =>
          Except.ok (rules, { st1 with extractor := some rules })
      | CacheLoad.ioError =>
          Except.ok (fetchOrSnapshot { st1 with cache_file_mtime := 0 } env)
      | CacheLoad.pickleError => Except.error ()
  else Except.ok (fetchOrSnapshot st env)

/-- `TLDExtract._get_tld_extractor` (lines 150-195): return the memoized
extractor when present and unexpired (line 151), else re-derive. -/
def getTldExtractor (st : TLDExtractState) (env : ResolutionEnv) :
    Except Unit (RuleSet × TLDExtractState) :=
  match st.extractor with
  | some tlds =>
      if TLDExtract_expired st env.now then resolveFresh st env
      else Except.ok (tlds, st)
  | none => resolveFresh st env

/-- A full `extract(url)` call on an instance: resolve the rule set (which
can raise, see lines 160-165) and run the pure extraction with it. -/
def TLDExtract_fullCall (hasInetAton : Bool) (st : TLDExtractState)
    (env : ResolutionEnv) (url : String) :
    Except Unit (ExtractResult × TLDExtractState) :=
  match getTldExtractor st env with
  | Except.error e => Except.error e
  | Except.ok (tlds, st1) => Except.ok (TLDExtract_call hasInetAton tlds url, st1)

/-! ## Cache serialization (spec model) -/

/-- Modelled from the spec: the cache-file serialization of a rule set.  The
source delegates to `pickle.dump` (line 189), which is outside this
repository; the spec treats the format as private and accepts "any
serialization (length-prefixed strings, line-delimited text, etc.) ... as
long as round-trip is exact".  Modelled as delimiter-separated strings with
an out-of-band delimiter (`none`), one delimiter after each rule. -/
def serializeRules : List String → List (Option Char)
  | [] => []
  | s :: rest => s.data.map some ++ none :: serializeRules rest

/-- Modelled from the spec: inverse of `serializeRules` (the `pickle.load` of
lines 160-161 on a file written by line 189); fails on streams whose last
string is unterminated. -/
def deserializeRules : List (Option Char) → Option (List String)
  | [] => some []
  | none :: l =>
    match deserializeRules l with
    | some ss => some ("" :: ss)
    | none => none
  | some c :: l =>
    match deserializeRules l with
    | some (s :: ss) => some (String.mk (c :: s.data) :: ss)
    | some [] => none
    | none => none

/-! ## Derived predicates used in theorem statements -/

/-- Line 230-231 condition at split index `i`: the exception rule
`'!' + '.'.join(spl[i:])` is in the rule set. -/
abbrev hitEx (tlds : RuleSet) (spl : List String) (i : Nat) : Prop :=
  ("!" ++ pyJoinDot (spl.drop i)) ∈ tlds

/-- Line 234-235 condition at split index `i`: the wildcard rule
`'*.' + '.'.join(spl[i+1:])` or the plain candidate `'.'.join(spl[i:])` is in
the rule set. -/
abbrev hitWP (tlds : RuleSet) (spl : List String) (i : Nat) : Prop :=
  ("*." ++ pyJoinDot (spl.drop (i + 1))) ∈ tlds ∨ pyJoinDot (spl.drop i) ∈ tlds

/-- Some rule fires at split index `i`. -/
abbrev ruleHit (tlds : RuleSet) (spl : List String) (i : Nat) : Prop :=
  hitEx tlds spl i ∨ hitWP tlds spl i

/-- The same three-way condition, phrased on the suffix `lbl :: rest` that
the loop currently examines. -/
abbrev ruleHitAt (tlds : RuleSet) (lbl : String) (rest : List String) : Prop :=
  ("!" ++ pyJoinDot (lbl :: rest)) ∈ tlds ∨
    (("*." ++ pyJoinDot rest) ∈ tlds ∨ pyJoinDot (lbl :: rest) ∈ tlds)

/-- The exact condition under which `_extract` (lines 129-137) returns the IP
short-circuit result `ExtractResult('', netloc, '')`: the matcher found no
suffix, the stripped netloc is non-empty and starts with a digit, and the
platform recognizer (`socket.inet_aton` when present, else `IP_RE`) accepts
it. -/
abbrev ipBranch (hasInetAton : Bool) (tlds : RuleSet) (netloc0 : String) : Prop :=
  (publicSuffixListExtract tlds (stripHost netloc0)).2 = "" ∧
    stripHost netloc0 ≠ "" ∧ firstIsDigit (stripHost netloc0) = true ∧
    (if hasInetAton then inetAton (stripHost netloc0)
     else ipReMatch (stripHost netloc0)) = true

/-- Join the non-empty components of an `ExtractResult` with dots. -/
def dotJoinNonempty (r : ExtractResult) : String :=
  pyJoinDot (([r.subdomain, r.domain, r.tld]).filter (fun s => s != ""))

/-! ## Supporting lemmas: split and join -/

theorem string_ext {s t : String} (h : s.data = t.data) : s = t :=
  congrArg String.mk h

theorem string_mk_eq_empty_iff (l : List Char) : String.mk l = "" ↔ l = [] := by
  constructor
  · intro h
    have := congrArg String.data h
    simpa using this
  · intro h
    subst h
    rfl

theorem splitDotChars_ne_nil (d : List Char) : splitDotChars d ≠ [] := by
  induction d with
  | nil => simp [splitDotChars]
  | cons c rest ih =>
    simp only [splitDotChars]
    split
    · simp
    · split
      · simp
      · simp

theorem joinDotChars_cons (p : List Char) (more : List (List Char)) (h : more ≠ []) :
    joinDotChars (p :: more) = p ++ '.' :: joinDotChars more := by
  cases more with
  | nil => exact absurd rfl h
  | cons q ms => rfl

theorem joinDotChars_splitDotChars (d : List Char) :
    joinDotChars (splitDotChars d) = d := by
  induction d with
  | nil => rfl
  | cons c rest ih =>
    by_cases hc : c = '.'
    · have hsplit : splitDotChars (c :: rest) = [] :: splitDotChars rest := by
        simp [splitDotChars, hc]
      rw [hsplit, joinDotChars_cons [] _ (splitDotChars_ne_nil rest), ih, hc]
      rfl
    · cases hr : splitDotChars rest with
      | nil => exact absurd hr (splitDotChars_ne_nil rest)
      | cons q ms =>
        have hsplit : splitDotChars (c :: rest) = (c :: q) :: ms := by
          simp [splitDotChars, hc, hr]
        have hjoin : joinDotChars (q :: ms) = rest := by rw [← hr, ih]
        rw [hsplit]
        cases ms with
        | nil =>
          simp only [joinDotChars] at hjoin ⊢
          rw [hjoin]
        | cons q2 ms2 =>
          rw [joinDotChars_cons (c :: q) (q2 :: ms2) (by simp)]
          rw [joinDotChars_cons q (q2 :: ms2) (by simp)] at hjoin
          rw [← hjoin]
          rfl

theorem splitDotChars_no_dot (d : List Char) :
    ∀ p ∈ splitDotChars d, '.' ∉ p := by
  induction d with
  | nil =>
    intro p hp
    simp [splitDotChars] at hp
    simp [hp]
  | cons c rest ih =>
    intro p hp
    simp only [splitDotChars] at hp
    by_cases hc : c = '.'
    · rw [if_pos hc] at hp
      rcases List.mem_cons.mp hp with h0 | h0
      · simp [h0]
      · exact ih p h0
    · rw [if_neg hc] at hp
      cases hr : splitDotChars rest with
      | nil => exact absurd hr (splitDotChars_ne_nil rest)
      | cons q ms =>
        rw [hr] at hp
        rcases List.mem_cons.mp hp with h0 | h0
        · subst h0
          intro hmem
          rcases List.mem_cons.mp hmem with h1 | h1
          · exact hc h1.symm
          · exact ih q (by rw [hr]; exact List.mem_cons_self q ms) h1
        · exact ih p (by rw [hr]; exact List.mem_cons_of_mem q h0)

theorem joinDotChars_append (A B : List (List Char)) (hA : A ≠ []) (hB : B ≠ []) :
    joinDotChars (A ++ B) = joinDotChars A ++ '.' :: joinDotChars B := by
  induction A with
  | nil => exact absurd rfl hA
  | cons p more ih =>
    cases more with
    | nil =>
      rw [List.singleton_append, joinDotChars_cons p B hB]
      rfl
    | cons q ms =>
      rw [List.cons_append, joinDotChars_cons p ((q :: ms) ++ B) (by simp),
          ih (by simp), joinDotChars_cons p (q :: ms) (by simp), List.append_assoc]
      rfl

theorem joinDotChars_ne_nil (parts : List (List Char)) (h1 : parts ≠ [])
    (h2 : ∀ p ∈ parts, p ≠ []) : joinDotChars parts ≠ [] := by
  cases parts with
  | nil => exact absurd rfl h1
  | cons p more =>
    cases more with
    | nil => exact h2 p (List.mem_cons_self p [])
    | cons q ms =>
      rw [joinDotChars_cons p (q :: ms) (by simp)]
      simp

theorem splitLastOn_eq_none {sep : Char} {d : List Char} (h : sep ∉ d) :
    splitLastOn sep d = none := by
  induction d with
  | nil => rfl
  | cons c rest ih =>
    have hc : c ≠ sep := fun hceq => h (hceq ▸ List.mem_cons_self c rest)
    have hrest : sep ∉ rest := fun hm => h (List.mem_cons_of_mem c hm)
    simp only [splitLastOn, ih hrest, if_neg hc]

theorem splitLastOn_last {sep : Char} (u b : List Char) (hb : sep ∉ b) :
    splitLastOn sep (u ++ sep :: b) = some (u, b) := by
  induction u with
  | nil => simp [splitLastOn, splitLastOn_eq_none hb]
  | cons c u2 ih => simp [splitLastOn, ih]

/-! ## Supporting lemmas: String-level split and join -/

theorem pyJoinDot_map_mk (ll : List (List Char)) :
    pyJoinDot (ll.map String.mk) = String.mk (joinDotChars ll) := by
  unfold pyJoinDot
  congr 1
  rw [List.map_map]
  have hcomp : String.data ∘ String.mk = id := rfl
  rw [hcomp, List.map_id]

theorem pyJoinDot_pySplitDot (s : String) : pyJoinDot (pySplitDot s) = s := by
  unfold pySplitDot
  rw [pyJoinDot_map_mk, joinDotChars_splitDotChars]

theorem pySplitDot_ne_nil (s : String) : pySplitDot s ≠ [] := by
  unfold pySplitDot
  simp [splitDotChars_ne_nil]

theorem pySplitDot_no_dot (s : String) :
    ∀ p ∈ pySplitDot s, '.' ∉ p.data := by
  intro p hp
  unfold pySplitDot at hp
  rcases List.mem_map.mp hp with ⟨l, hl, hpl⟩
  subst hpl
  exact splitDotChars_no_dot s.data l hl

theorem pyJoinDot_singleton (x : String) : pyJoinDot [x] = x := rfl

theorem pyJoinDot_nil : pyJoinDot [] = "" := rfl

theorem string_append_data (s t : String) : (s ++ t).data = s.data ++ t.data := rfl

theorem pyJoinDot_append (a b : List String) (ha : a ≠ []) (hb : b ≠ []) :
    pyJoinDot (a ++ b) = pyJoinDot a ++ "." ++ pyJoinDot b := by
  apply string_ext
  unfold pyJoinDot
  rw [List.map_append,
      joinDotChars_append (a.map String.data) (b.map String.data) (by simpa) (by simpa)]
  simp [string_append_data]

theorem pyJoinDot_ne_empty (a : List String) (h1 : a ≠ [])
    (h2 : ∀ x ∈ a, x ≠ "") : pyJoinDot a ≠ "" := by
  unfold pyJoinDot
  rw [Ne, string_mk_eq_empty_iff]
  apply joinDotChars_ne_nil _ (by simpa)
  intro p hp
  rcases List.mem_map.mp hp with ⟨x, hx, hpx⟩
  subst hpx
  intro hnil
  exact h2 x hx (string_ext (by simpa using hnil))

theorem pyJoinDot_eq_empty (a : List String) (h2 : ∀ x ∈ a, x ≠ "")
    (h : pyJoinDot a = "") : a = [] := by
  by_contra hne
  exact pyJoinDot_ne_empty a hne h2 h

/-! ## Supporting lemmas: rpartition -/

theorem rpartitionDot_no_dot (s : String) (h : '.' ∉ s.data) :
    rpartitionDot s = ("", s) := by
  unfold rpartitionDot
  rw [splitLastOn_eq_none h]

theorem rpartitionDot_join (a : List String) (x : String) (ha : a ≠ [])
    (hx : '.' ∉ x.data) :
    rpartitionDot (pyJoinDot (a ++ [x])) = (pyJoinDot a, x) := by
  unfold rpartitionDot
  rw [pyJoinDot_append a [x] ha (by simp), pyJoinDot_singleton]
  have hdata : (pyJoinDot a ++ "." ++ x).data = (pyJoinDot a).data ++ '.' :: x.data := by
    simp [string_append_data]
  rw [hdata, splitLastOn_last _ _ hx]

/-! ## Supporting lemmas: the matching loop -/

theorem pslExtractLoop_step (tlds : RuleSet) (netloc : String)
    (pre : List String) (lbl : String) (rest : List String)
    (hno : ¬ ruleHitAt tlds lbl rest) :
    pslExtractLoop tlds netloc pre (lbl :: rest) =
      pslExtractLoop tlds netloc (pre ++ [lbl]) rest := by
  have h1 : ("!" ++ pyJoinDot (lbl :: rest)) ∉ tlds := fun hc => hno (Or.inl hc)
  have h2 : ¬ (("*." ++ pyJoinDot rest) ∈ tlds ∨ pyJoinDot (lbl :: rest) ∈ tlds) :=
    fun hc => hno (Or.inr hc)
  simp only [pslExtractLoop, if_neg h1, if_neg h2]

theorem pslExtractLoop_skip (tlds : RuleSet) (netloc : String) :
    ∀ (a b pre : List String),
      (∀ j lbl r2, a.drop j = lbl :: r2 → ¬ ruleHitAt tlds lbl (r2 ++ b)) →
      pslExtractLoop tlds netloc pre (a ++ b) =
        pslExtractLoop tlds netloc (pre ++ a) b := by
  intro a
  induction a with
  | nil =>
    intro b pre _
    simp
  | cons l a2 ih =>
    intro b pre hno
    have h0 : ¬ ruleHitAt tlds l (a2 ++ b) := hno 0 l a2 (by simp)
    calc pslExtractLoop tlds netloc pre ((l :: a2) ++ b)
        = pslExtractLoop tlds netloc (pre ++ [l]) (a2 ++ b) :=
          pslExtractLoop_step tlds netloc pre l (a2 ++ b) h0
      _ = pslExtractLoop tlds netloc ((pre ++ [l]) ++ a2) b :=
          ih b (pre ++ [l]) (fun j lbl r2 hj => hno (j + 1) lbl r2 (by simpa using hj))
      _ = pslExtractLoop tlds netloc (pre ++ (l :: a2)) b := by
          rw [List.append_assoc]
          rfl

theorem pslExtractLoop_no_hit (tlds : RuleSet) (netloc : String)
    (b pre : List String)
    (hno : ∀ j lbl r2, b.drop j = lbl :: r2 → ¬ ruleHitAt tlds lbl r2) :
    pslExtractLoop tlds netloc pre b = (netloc, "") := by
  have := pslExtractLoop_skip tlds netloc b [] pre
    (fun j lbl r2 hj => by simpa using hno j lbl r2 hj)
  rw [List.append_nil] at this
  rw [this]
  rfl

theorem pslExtractLoop_cases (tlds : RuleSet) (netloc : String) :
    ∀ (rest pre : List String),
      pslExtractLoop tlds netloc pre rest = (netloc, "") ∨
      ∃ a b, pre ++ rest = a ++ b ∧
        pslExtractLoop tlds netloc pre rest = (pyJoinDot a, pyJoinDot b) := by
  intro rest
  induction rest with
  | nil =>
    intro pre
    left
    rfl
  | cons l r2 ih =>
    intro pre
    by_cases h1 : ("!" ++ pyJoinDot (l :: r2)) ∈ tlds
    · right
      refine ⟨pre ++ [l], r2, by simp, ?_⟩
      simp only [pslExtractLoop, if_pos h1]
    · by_cases h2 : ("*." ++ pyJoinDot r2) ∈ tlds ∨ pyJoinDot (l :: r2) ∈ tlds
      · right
        refine ⟨pre, l :: r2, rfl, ?_⟩
        simp only [pslExtractLoop, if_neg h1, if_pos h2]
      · rw [pslExtractLoop_step tlds netloc pre l r2 (fun hc => hc.elim h1 h2)]
        rcases ih (pre ++ [l]) with hcase | ⟨a, b, hab, hres⟩
        · left
          exact hcase
        · right
          refine ⟨a, b, ?_, hres⟩
          rw [← hab, List.append_assoc]
          rfl

/-- The key take-append lemma: `spl.take (i+1) = spl.take i ++ [spl[i]]`. -/
theorem take_succ_eq {α : Type} (l : List α) (i : Nat) (h : i < l.length) :
    l.take (i + 1) = l.take i ++ [l[i]] := by
  rw [List.take_succ, List.getElem?_eq_getElem h]
  rfl

/-! ## Supporting lemmas: the extractor facade -/

theorem extract_not_ip (hasA : Bool) (tlds : RuleSet) (netloc0 : String)
    (h : ¬ ipBranch hasA tlds netloc0) :
    TLDExtract_extract hasA tlds netloc0 = rpartitionTriple tlds netloc0 := by
  unfold TLDExtract_extract
  split
  · rename_i hcond
    cases hasA with
    | false =>
      simp only [Bool.false_eq_true, if_false]
      split
      · rename_i hip
        exact absurd ⟨hcond.1, hcond.2.1, hcond.2.2, by simpa using hip⟩ h
      · rfl
    | true =>
      simp only [if_true]
      split
      · rename_i hip
        exact absurd ⟨hcond.1, hcond.2.1, hcond.2.2, by simpa using hip⟩ h
      · rfl
  · rfl

theorem extract_ip (hasA : Bool) (tlds : RuleSet) (netloc0 : String)
    (h : ipBranch hasA tlds netloc0) :
    TLDExtract_extract hasA tlds netloc0 =
      { subdomain := "", domain := stripHost netloc0, tld := "" } := by
  obtain ⟨h1, h2, h3, h4⟩ := h
  unfold TLDExtract_extract
  rw [if_pos ⟨h1, h2, h3⟩]
  cases hasA with
  | false =>
    simp only [Bool.false_eq_true, if_false]
    rw [if_pos (by simpa using h4)]
  | true =>
    simp only [if_true]
    rw [if_pos (by simpa using h4)]

/-! ## Supporting lemmas: rejoining the result triple -/

theorem dot_data : (".").data = ['.'] := rfl

theorem pyJoinDot_pair (u v : String) : pyJoinDot [u, v] = u ++ "." ++ v := by
  apply string_ext
  rw [string_append_data, string_append_data, dot_data, List.append_assoc]
  rfl

theorem pyJoinDot_triple (u v w : String) :
    pyJoinDot [u, v, w] = u ++ "." ++ v ++ "." ++ w := by
  apply string_ext
  rw [string_append_data, string_append_data, string_append_data,
      string_append_data, dot_data, List.append_assoc, List.append_assoc,
      List.append_assoc]
  rfl

theorem dotJoin_parts (a b : List String)
    (hne : ∀ x ∈ a ++ b, x ≠ "") (hnd : ∀ x ∈ a ++ b, '.' ∉ x.data)
    (hnn : a ++ b ≠ []) :
    dotJoinNonempty (rpartitionResult (pyJoinDot a) (pyJoinDot b)) =
      pyJoinDot (a ++ b) := by
  rcases List.eq_nil_or_concat a with ha | ⟨a0, x, hax⟩
  · subst ha
    have hb : b ≠ [] := by simpa using hnn
    have hsne : pyJoinDot b ≠ "" :=
      pyJoinDot_ne_empty b hb (fun x hx => hne x (by simpa using hx))
    have hrp : rpartitionDot (pyJoinDot ([] : List String)) = ("", "") := by
      rw [pyJoinDot_nil]
      exact rpartitionDot_no_dot ("") (by simp [String.data])
    simp only [dotJoinNonempty, rpartitionResult, hrp, List.nil_append]
    have hbt : ((pyJoinDot b) != "") = true := by simpa [bne_iff_ne] using hsne
    simp [List.filter, hbt, pyJoinDot_singleton]
  · rw [List.concat_eq_append] at hax
    subst hax
    have hx_mem : x ∈ (a0 ++ [x]) ++ b := by simp
    have hxne : x ≠ "" := hne x hx_mem
    have hxbt : (x != "") = true := by simpa [bne_iff_ne] using hxne
    have hxnd : '.' ∉ x.data := hnd x hx_mem
    by_cases ha0 : a0 = []
    · subst ha0
      have hrp : rpartitionDot (pyJoinDot ([] ++ [x])) = ("", x) := by
        rw [List.nil_append, pyJoinDot_singleton]
        exact rpartitionDot_no_dot x hxnd
      by_cases hb : b = []
      · subst hb
        simp only [dotJoinNonempty, rpartitionResult, hrp, pyJoinDot_nil]
        simp [List.filter, hxbt, pyJoinDot_singleton]
      · have hsne : pyJoinDot b ≠ "" :=
          pyJoinDot_ne_empty b hb (fun y hy => hne y (by simp [hy]))
        have hsbt : ((pyJoinDot b) != "") = true := by simpa [bne_iff_ne] using hsne
        simp only [dotJoinNonempty, rpartitionResult, hrp]
        rw [show ([("" : String), x, pyJoinDot b].filter (fun s => s != "")) =
              [x, pyJoinDot b] by simp [List.filter, hxbt, hsbt]]
        rw [pyJoinDot_pair, List.nil_append,
            pyJoinDot_append [x] b (by simp) hb, pyJoinDot_singleton]
    · have hsub_ne : pyJoinDot a0 ≠ "" :=
        pyJoinDot_ne_empty a0 ha0 (fun y hy => hne y (by simp [hy]))
      have hsubbt : ((pyJoinDot a0) != "") = true := by simpa [bne_iff_ne] using hsub_ne
      have hrp : rpartitionDot (pyJoinDot (a0 ++ [x])) = (pyJoinDot a0, x) :=
        rpartitionDot_join a0 x ha0 hxnd
      by_cases hb : b = []
      · subst hb
        simp only [dotJoinNonempty, rpartitionResult, hrp, pyJoinDot_nil,
          List.append_nil]
        rw [show ([pyJoinDot a0, x, ("" : String)].filter (fun s => s != "")) =
              [pyJoinDot a0, x] by simp [List.filter, hxbt, hsubbt]]
        rw [pyJoinDot_pair, pyJoinDot_append a0 [x] ha0 (by simp), pyJoinDot_singleton]
      · have hsne : pyJoinDot b ≠ "" :=
          pyJoinDot_ne_empty b hb (fun y hy => hne y (by simp [hy]))
        have hsbt : ((pyJoinDot b) != "") = true := by simpa [bne_iff_ne] using hsne
        simp only [dotJoinNonempty, rpartitionResult, hrp]
        rw [show ([pyJoinDot a0, x, pyJoinDot b].filter (fun s => s != "")) =
              [pyJoinDot a0, x, pyJoinDot b] by simp [List.filter, hxbt, hsubbt, hsbt]]
        rw [pyJoinDot_triple,
            pyJoinDot_append (a0 ++ [x]) b (by simp) hb,
            pyJoinDot_append a0 [x] ha0 (by simp), pyJoinDot_singleton]

/-! ## Supporting lemmas: serialization round trip -/

theorem deserializeRules_cons (d : List Char) (l : List (Option Char))
    (ss : List String) (h : deserializeRules l = some ss) :
    deserializeRules (d.map some ++ none :: l) = some (String.mk d :: ss) := by
  induction d with
  | nil =>
    simp only [List.map_nil, List.nil_append, deserializeRules, h]
  | cons c d2 ih =>
    simp only [List.map_cons, List.cons_append, deserializeRules, List.append_eq, ih]

/-! ## Supporting lemmas: index form of the loop conditions -/

theorem ruleHitAt_iff_ruleHit (tlds : RuleSet) (spl : List String) (j : Nat)
    (lbl : String) (r2 : List String) (hd : spl.drop j = lbl :: r2) :
    ruleHitAt tlds lbl r2 ↔ ruleHit tlds spl j := by
  have hd1 : spl.drop (j + 1) = r2 := by
    rw [← List.tail_drop, hd]
    rfl
  simp only [ruleHitAt, ruleHit, hitEx, hitWP, hd, hd1]

theorem psl_reach (tlds : RuleSet) (host : String) (i : Nat)
    (hprev : ∀ j, j < i → ¬ ruleHit tlds (pySplitDot host) j) :
    publicSuffixListExtract tlds host =
      pslExtractLoop tlds host ((pySplitDot host).take i) ((pySplitDot host).drop i) := by
  have hside : ∀ j lbl r2, ((pySplitDot host).take i).drop j = lbl :: r2 →
      ¬ ruleHitAt tlds lbl (r2 ++ (pySplitDot host).drop i) := by
    intro j lbl r2 hj
    have hjlen : j < ((pySplitDot host).take i).length := by
      by_contra hc
      push_neg at hc
      rw [List.drop_eq_nil_of_le hc] at hj
      cases hj
    have hji : j < i := by
      rw [List.length_take] at hjlen
      omega
    have hdropj : (pySplitDot host).drop j = lbl :: (r2 ++ (pySplitDot host).drop i) := by
      conv_lhs => rw [← List.take_append_drop i (pySplitDot host)]
      rw [List.drop_append_eq_append_drop, Nat.sub_eq_zero_of_le hjlen.le,
          List.drop_zero, hj]
      rfl
    intro hat
    exact hprev j hji
      ((ruleHitAt_iff_ruleHit tlds (pySplitDot host) j lbl _ hdropj).mp hat)
  have hskip := pslExtractLoop_skip tlds host ((pySplitDot host).take i)
    ((pySplitDot host).drop i) [] hside
  rw [List.take_append_drop, List.nil_append] at hskip
  exact hskip

theorem psl_no_hit (tlds : RuleSet) (host : String)
    (hno : ∀ j, j < (pySplitDot host).length → ¬ ruleHit tlds (pySplitDot host) j) :
    publicSuffixListExtract tlds host = (host, "") := by
  apply pslExtractLoop_no_hit
  intro j lbl r2 hj
  have hlen : j < (pySplitDot host).length := by
    by_contra hc
    push_neg at hc
    rw [List.drop_eq_nil_of_le hc] at hj
    cases hj
  intro hat
  exact hno j hlen ((ruleHitAt_iff_ruleHit tlds (pySplitDot host) j lbl r2 hj).mp hat)

/-! ## Supporting lemmas: expiry -/

theorem expired_true_of (st : TLDExtractState) (now : Int)
    (h1 : st.cache_ttl_sec ≠ 0) (h2 : st.cache_file_mtime ≠ 0)
    (h3 : st.fetch = true) (h4 : now - st.cache_file_mtime > st.cache_ttl_sec) :
    TLDExtract_expired st now = true := by
  simp [TLDExtract_expired, h1, h2, h3, h4]

theorem expired_false_of_le (st : TLDExtractState) (now : Int)
    (h : now - st.cache_file_mtime ≤ st.cache_ttl_sec) :
    TLDExtract_expired st now = false := by
  have hd : decide (now - st.cache_file_mtime > st.cache_ttl_sec) = false :=
    decide_eq_false (by omega)
  simp [TLDExtract_expired, hd]

theorem expired_iff (st : TLDExtractState) (now : Int)
    (h1 : 0 ≤ st.cache_ttl_sec) (h2 : 0 ≤ st.cache_file_mtime) :
    TLDExtract_expired st now = true ↔
      (0 < st.cache_ttl_sec ∧ 0 < st.cache_file_mtime ∧ st.fetch = true ∧
        now - st.cache_file_mtime > st.cache_ttl_sec) := by
  unfold TLDExtract_expired
  constructor
  · intro hb
    simp only [Bool.and_eq_true, decide_eq_true_eq] at hb
    obtain ⟨⟨⟨hA, hB⟩, hC⟩, hD⟩ := hb
    exact ⟨by omega, by omega, hC, hD⟩
  · intro hc
    obtain ⟨hA, hB, hC, hD⟩ := hc
    simp only [Bool.and_eq_true, decide_eq_true_eq]
    exact ⟨⟨⟨by omega, by omega⟩, hC⟩, hD⟩

theorem fetchOrSnapshot_fst_ne_nil (st : TLDExtractState) (env : ResolutionEnv)
    (h2 : env.snapshotRules ≠ []) : (fetchOrSnapshot st env).1 ≠ [] := by
  simp only [fetchOrSnapshot]
  by_cases hh : (if st.fetch then env.fetchResult else []).isEmpty = true
  · rw [if_pos hh]
    exact h2
  · rw [if_neg hh]
    intro hnil
    apply hh
    have hifnil : (if st.fetch then env.fetchResult else []) = [] := hnil
    rw [hifnil]
    rfl

theorem resolveFresh_nonempty (st : TLDExtractState) (env : ResolutionEnv)
    (h1 : ∀ r, env.cacheLoad = CacheLoad.ok r → r ≠ [])
    (h2 : env.snapshotRules ≠ []) :
    ∀ tlds st1, resolveFresh st env = Except.ok (tlds, st1) → tlds ≠ [] := by
  intro tlds st1 heq
  simp only [resolveFresh] at heq
  by_cases hex : env.cacheFileExists = true
  · rw [if_pos hex] at heq
    by_cases hexp :
        TLDExtract_expired { st with cache_file_mtime := env.cacheFileMtime } env.now = true
    · rw [if_pos hexp] at heq
      have := Except.ok.inj heq
      have hfst := congrArg Prod.fst this
      simp only at hfst
      rw [← hfst]
      exact fetchOrSnapshot_fst_ne_nil _ env h2
    · rw [if_neg hexp] at heq
      cases hcl : env.cacheLoad with
      | ok rules =>
        rw [hcl] at heq
        simp only [Except.ok.injEq, Prod.mk.injEq] at heq
        rw [← heq.1]
        exact h1 rules hcl
      | ioError =>
        rw [hcl] at heq
        simp only [Except.ok.injEq] at heq
        have hfst := congrArg Prod.fst heq
        simp only at hfst
        rw [← hfst]
        exact fetchOrSnapshot_fst_ne_nil _ env h2
      | pickleError =>
        rw [hcl] at heq
        cases heq
  · rw [if_neg hex] at heq
    have := Except.ok.inj heq
    have hfst := congrArg Prod.fst this
    simp only at hfst
    rw [← hfst]
    exact fetchOrSnapshot_fst_ne_nil _ env h2

/-! ## Claim theorems -/

/-- C1. For every hostname and rule set, the suffix matcher splits the
hostname on dots into labels, iterates the split index `i` ascending from 0
(longest candidate suffix first), and at each index checks the exception rule
before the wildcard/plain rules: on the first index where the exception rule
fires it returns the split after label `i`; otherwise, on the first index
where the wildcard or plain rule fires, the split before label `i`.  In
particular, with rules `*.jp` and `!metro.tokyo.jp`, matching
`metro.tokyo.jp` returns prefix `metro` and suffix `tokyo.jp`, not suffix
`jp`. -/
theorem C1_matcher_first_hit (tlds : RuleSet) (host : String) :
    (∀ i, i < (pySplitDot host).length →
      (∀ j, j < i → ¬ ruleHit tlds (pySplitDot host) j) →
      ((hitEx tlds (pySplitDot host) i →
          publicSuffixListExtract tlds host =
            (pyJoinDot ((pySplitDot host).take (i + 1)),
             pyJoinDot ((pySplitDot host).drop (i + 1)))) ∧
       (¬ hitEx tlds (pySplitDot host) i → hitWP tlds (pySplitDot host) i →
          publicSuffixListExtract tlds host =
            (pyJoinDot ((pySplitDot host).take i),
             pyJoinDot ((pySplitDot host).drop i))))) ∧
    publicSuffixListExtract ["*.jp", "!metro.tokyo.jp"] ("metro.tokyo.jp") =
      ("metro", "tokyo.jp") := by
  constructor
  · intro i hi hprev
    have hreach := psl_reach tlds host i hprev
    have hdrop : (pySplitDot host).drop i =
        (pySplitDot host)[i] :: (pySplitDot host).drop (i + 1) :=
      List.drop_eq_getElem_cons hi
    constructor
    · intro hex
      have hc : ("!" ++ pyJoinDot
          ((pySplitDot host)[i] :: (pySplitDot host).drop (i + 1))) ∈ tlds := by
        rw [← hdrop]
        exact hex
      rw [hreach, hdrop]
      simp only [pslExtractLoop, if_pos hc]
      rw [← take_succ_eq (pySplitDot host) i hi]
    · intro hnex hwp
      have hc1 : ("!" ++ pyJoinDot
          ((pySplitDot host)[i] :: (pySplitDot host).drop (i + 1))) ∉ tlds := by
        rw [← hdrop]
        exact hnex
      have hc2 : ("*." ++ pyJoinDot ((pySplitDot host).drop (i + 1))) ∈ tlds ∨
          pyJoinDot ((pySplitDot host)[i] :: (pySplitDot host).drop (i + 1)) ∈ tlds := by
        rw [← hdrop]
        exact hwp
      rw [hreach, hdrop]
      simp only [pslExtractLoop, if_neg hc1, if_pos hc2]
  · decide

/-- C1 witness: the exception rule fires at index 0 for `metro.tokyo.jp`. -/
theorem C1_matcher_first_hit_witness :
    publicSuffixListExtract ["*.jp", "!metro.tokyo.jp"] ("metro.tokyo.jp") =
      (pyJoinDot ((pySplitDot ("metro.tokyo.jp")).take 1),
       pyJoinDot ((pySplitDot ("metro.tokyo.jp")).drop 1)) :=
  ((C1_matcher_first_hit ["*.jp", "!metro.tokyo.jp"] ("metro.tokyo.jp")).1 0
    (by decide) (fun j hj => absurd hj (by omega))).1 (by decide)

/-- C8. For every input whose hostname does not take the IP-literal branch,
`_extract` splits the prefix returned by the suffix matcher on the last dot
into (subdomain, domain); `rpartition('.')` gives an empty subdomain when the
prefix holds no dot; when no rule fires on the hostname the matcher returns
`(hostname, "")`; and the unmatched single-label host `localhost` yields
`("", "localhost", "")`. -/
theorem C8_last_dot_split (hasA : Bool) (tlds : RuleSet) (netloc0 : String) :
    (¬ ipBranch hasA tlds netloc0 →
      TLDExtract_extract hasA tlds netloc0 =
        rpartitionResult (publicSuffixListExtract tlds (stripHost netloc0)).1
          (publicSuffixListExtract tlds (stripHost netloc0)).2) ∧
    (∀ s : String, '.' ∉ s.data → rpartitionDot s = ("", s)) ∧
    ((∀ j, j < (pySplitDot (stripHost netloc0)).length →
        ¬ ruleHit tlds (pySplitDot (stripHost netloc0)) j) →
      publicSuffixListExtract tlds (stripHost netloc0) = (stripHost netloc0, "")) ∧
    TLDExtract_call true ["com"] ("localhost") =
      { subdomain := "", domain := "localhost", tld := "" } := by
  refine ⟨?_, ?_, ?_, ?_⟩
  · intro hip
    exact extract_not_ip hasA tlds netloc0 hip
  · intro s hs
    exact rpartitionDot_no_dot s hs
  · intro hno
    exact psl_no_hit tlds (stripHost netloc0) hno
  · decide

/-- C8 witness: `localhost` takes neither branch and nothing fires. -/
theorem C8_last_dot_split_witness :
    TLDExtract_extract true ["com"] ("localhost") =
      rpartitionResult (publicSuffixListExtract ["com"] (stripHost ("localhost"))).1
        (publicSuffixListExtract ["com"] (stripHost ("localhost"))).2 ∧
    publicSuffixListExtract ["com"] (stripHost ("localhost")) =
      (stripHost ("localhost"), "") :=
  ⟨(C8_last_dot_split true ["com"] ("localhost")).1 (by decide),
   (C8_last_dot_split true ["com"] ("localhost")).2.2.1 (by decide)⟩

/-- C9 (amended).  For every rule set and hostname, when both components
returned by the matcher are non-empty their dot-concatenation is the
hostname.  Provided additionally that all labels of the hostname are
non-empty (no leading, trailing or consecutive dots): an empty component
means the other one equals the hostname, and for inputs not taking the
IP-literal branch, joining the non-empty components of the resulting triple
with dots reconstructs the stripped hostname exactly.  (Without the
non-empty-label proviso the either-empty clause fails, see the
counterexample.) -/
theorem C9_partition_rejoin (tlds : RuleSet) (host : String) :
    ((publicSuffixListExtract tlds host).1 ≠ "" →
      (publicSuffixListExtract tlds host).2 ≠ "" →
      (publicSuffixListExtract tlds host).1 ++ "." ++
        (publicSuffixListExtract tlds host).2 = host) ∧
    ("" ∉ pySplitDot host →
      ((publicSuffixListExtract tlds host).1 = "" →
        (publicSuffixListExtract tlds host).2 = host) ∧
      ((publicSuffixListExtract tlds host).2 = "" →
        (publicSuffixListExtract tlds host).1 = host) ∧
      (∀ (hasA : Bool) (netloc0 : String), stripHost netloc0 = host →
        ¬ ipBranch hasA tlds netloc0 →
        dotJoinNonempty (TLDExtract_extract hasA tlds netloc0) = host)) := by
  have hcase : ∃ a b, pySplitDot host = a ++ b ∧
      publicSuffixListExtract tlds host = (pyJoinDot a, pyJoinDot b) := by
    rcases pslExtractLoop_cases tlds host (pySplitDot host) [] with h1 | ⟨a, b, hab, hres⟩
    · refine ⟨pySplitDot host, [], (List.append_nil _).symm, ?_⟩
      show pslExtractLoop tlds host [] (pySplitDot host) = _
      rw [h1, pyJoinDot_pySplitDot, pyJoinDot_nil]
    · exact ⟨a, b, by simpa using hab, hres⟩
  obtain ⟨a, b, hab, hres⟩ := hcase
  have hjoin_ab : pyJoinDot (a ++ b) = host := by rw [← hab, pyJoinDot_pySplitDot]
  have hp1 : (publicSuffixListExtract tlds host).1 = pyJoinDot a := by rw [hres]
  have hp2 : (publicSuffixListExtract tlds host).2 = pyJoinDot b := by rw [hres]
  constructor
  · intro hp hs
    rw [hp1] at hp
    rw [hp2] at hs
    rw [hp1, hp2]
    have ha : a ≠ [] := fun h0 => hp (by rw [h0]; rfl)
    have hb : b ≠ [] := fun h0 => hs (by rw [h0]; rfl)
    rw [← pyJoinDot_append a b ha hb, hjoin_ab]
  · intro hlab
    have hne : ∀ x ∈ a ++ b, x ≠ "" := by
      intro x hx h0
      rw [h0] at hx
      rw [← hab] at hx
      exact hlab hx
    have hnd : ∀ x ∈ a ++ b, '.' ∉ x.data := by
      intro x hx
      exact pySplitDot_no_dot host x (by rw [hab]; exact hx)
    have hnn : a ++ b ≠ [] := by
      rw [← hab]
      exact pySplitDot_ne_nil host
    refine ⟨?_, ?_, ?_⟩
    · intro hp
      rw [hp1] at hp
      rw [hp2]
      have ha : a = [] := pyJoinDot_eq_empty a (fun x hx => hne x (by simp [hx])) hp
      subst ha
      simpa using hjoin_ab
    · intro hs
      rw [hp2] at hs
      rw [hp1]
      have hb : b = [] := pyJoinDot_eq_empty b (fun x hx => hne x (by simp [hx])) hs
      subst hb
      simpa using hjoin_ab
    · intro hasA netloc0 hstrip hip
      rw [extract_not_ip hasA tlds netloc0 hip]
      show dotJoinNonempty
        (rpartitionResult (publicSuffixListExtract tlds (stripHost netloc0)).1
          (publicSuffixListExtract tlds (stripHost netloc0)).2) = host
      rw [hstrip, hp1, hp2, dotJoin_parts a b hne hnd hnn, hjoin_ab]

/-- C9 counterexample: with rule set `["x"]` and hostname `".x"` (an empty
first label) the matcher returns `("", "x")`: the prefix component is empty
yet the suffix component does not equal the hostname, refuting the
either-empty clause of the claim as stated. -/
theorem C9_counterexample :
    (publicSuffixListExtract ["x"] (".x")).1 = "" ∧
    (publicSuffixListExtract ["x"] (".x")).2 = "x" ∧
    ((publicSuffixListExtract ["x"] (".x")).2 = ".x" → False) := by decide

/-- C9 witness: both components of `forums.bbc.co.uk` under rule `co.uk` are
non-empty and rejoin to the hostname. -/
theorem C9_partition_rejoin_witness :
    (publicSuffixListExtract ["co.uk"] ("forums.bbc.co.uk")).1 ++ "." ++
      (publicSuffixListExtract ["co.uk"] ("forums.bbc.co.uk")).2 =
      "forums.bbc.co.uk" :=
  (C9_partition_rejoin ["co.uk"] ("forums.bbc.co.uk")).1 (by decide) (by decide)

/-- C2 (code-bug evaluation).  With a fresh default-configured instance and
an existing, unexpired cache file whose content is corrupt (a non-`IOError`
deserialization failure such as `pickle.UnpicklingError`), rule-set
resolution -- and hence `extract` -- propagates the exception to the caller,
because only `IOError` is caught at lines 163-165.  An unreadable file
(`IOError`) is by contrast recovered: it is logged, treated as a cache miss,
and resolution falls through to the fetched rules. -/
theorem C2_corrupt_cache_raises :
    TLDExtract_fullCall true
        { fetch := true, cache_file_mtime := 0, cache_ttl_sec := 0, extractor := none }
        { cacheFileExists := true, cacheFileMtime := 100,
          cacheLoad := CacheLoad.pickleError, fetchResult := ["com"],
          snapshotRules := ["com"], now := 1000 }
        ("http://example.com/") = Except.error () ∧
    TLDExtract_fullCall true
        { fetch := true, cache_file_mtime := 0, cache_ttl_sec := 0, extractor := none }
        { cacheFileExists := true, cacheFileMtime := 100,
          cacheLoad := CacheLoad.ioError, fetchResult := ["com"],
          snapshotRules := ["snap"], now := 1000 }
        ("http://example.com/") =
      Except.ok ({ subdomain := "", domain := "example", tld := "com" },
        { fetch := true, cache_file_mtime := 1000, cache_ttl_sec := 0,
          extractor := some ["com"] }) :=
  ⟨rfl, rfl⟩

/-- C3 (amended).  The IPv4 test of `_extract` runs only after the suffix
matcher and only when it returned an empty suffix: a non-empty matcher
suffix yields the rpartition triple with no IP check.  When the stripped
hostname is non-empty, starts with a digit, the matcher returned an empty
suffix, and the platform recognizer accepts it (`socket.inet_aton` when
available -- which also accepts non-four-octet forms such as `192.168.1` --
else the anchored four-octet `IP_RE`), extract returns
`("", hostname, "")`.  In particular
`extract("http://192.168.1.1/") == ("", "192.168.1.1", "")`. -/
theorem C3_ip_literal (hasA : Bool) (tlds : RuleSet) (netloc0 : String) :
    ((publicSuffixListExtract tlds (stripHost netloc0)).2 ≠ "" →
      TLDExtract_extract hasA tlds netloc0 =
        rpartitionResult (publicSuffixListExtract tlds (stripHost netloc0)).1
          (publicSuffixListExtract tlds (stripHost netloc0)).2) ∧
    (stripHost netloc0 ≠ "" →
      firstIsDigit (stripHost netloc0) = true →
      (publicSuffixListExtract tlds (stripHost netloc0)).2 = "" →
      (if hasA then inetAton (stripHost netloc0)
       else ipReMatch (stripHost netloc0)) = true →
      TLDExtract_extract hasA tlds netloc0 =
        { subdomain := "", domain := stripHost netloc0, tld := "" }) ∧
    TLDExtract_call true ["com"] ("http://192.168.1.1/") =
      { subdomain := "", domain := "192.168.1.1", tld := "" } ∧
    TLDExtract_call true ["com"] ("http://192.168.1/") =
      { subdomain := "", domain := "192.168.1", tld := "" } ∧
    isFourOctets ("192.168.1") = false := by
  refine ⟨?_, ?_, by decide, by decide, by decide⟩
  · intro hne
    apply extract_not_ip
    intro hip
    exact hne hip.1
  · intro h2 h3 h1 h4
    exact extract_ip hasA tlds netloc0 ⟨h1, h2, h3, h4⟩

/-- C3 counterexample: with rule `1` in the rule set and input
`http://127.0.0.1/`, the hostname is exactly four dot-separated octets, yet
extract returns `("127.0", "0", "1")` rather than short-circuiting: the
suffix matcher runs first, and the IP test is reached only when it found no
suffix. -/
theorem C3_counterexample :
    isFourOctets ("127.0.0.1") = true ∧
    TLDExtract_call true ["1"] ("http://127.0.0.1/") =
      { subdomain := "127.0", domain := "0", tld := "1" } ∧
    (TLDExtract_call true ["1"] ("http://127.0.0.1/") =
      { subdomain := "", domain := "127.0.0.1", tld := "" } → False) := by
  decide

/-- C3 witness: `192.168.1.1` with rule set `["com"]`. -/
theorem C3_ip_literal_witness :
    TLDExtract_extract true ["com"] ("192.168.1.1") =
      { subdomain := "", domain := stripHost ("192.168.1.1"), tld := "" } :=
  (C3_ip_literal true ["com"] ("192.168.1.1")).2.1
    (by decide) (by decide) (by decide) (by decide)

/-- C4.  Constructing with fetch disabled and a strictly positive
`cache_ttl_sec` raises `ValueError` at construction (lines 109-110) and is
never silently ignored; in particular `TLDExtract(fetch=False,
cache_ttl_sec=5)` raises. -/
theorem C4_config_error (t : Int) (ht : 0 < t) :
    TLDExtract_init false t = Except.error () := by
  have hmax : max t 0 = t := max_eq_left ht.le
  simp only [TLDExtract_init, hmax]
  rw [if_pos ⟨trivial, by omega⟩]

/-- C4 witness: `fetch=False, cache_ttl_sec=5`. -/
theorem C4_config_error_witness : TLDExtract_init false 5 = Except.error () :=
  C4_config_error 5 (by decide)

/-- C5.  The expiry test (lines 142-148) holds exactly when
`cache_ttl_sec > 0` and `cache_file_mtime > 0` and fetch is enabled and
`now - cache_file_mtime > cache_ttl_sec` (given the non-negativity
invariants of both fields).  Boundary: with TTL `T`, mtime `now - T - 1` is
expired while `now - T + 1` is not; TTL 0 never expires; and on resolution
an expired cache file triggers refetch (the cache content is ignored) while
an unexpired one is reused. -/
theorem C5_expiry :
    (∀ (st : TLDExtractState) (now : Int),
      0 ≤ st.cache_ttl_sec → 0 ≤ st.cache_file_mtime →
      (TLDExtract_expired st now = true ↔
        (0 < st.cache_ttl_sec ∧ 0 < st.cache_file_mtime ∧ st.fetch = true ∧
          now - st.cache_file_mtime > st.cache_ttl_sec))) ∧
    (∀ T now : Int, 0 < T → 0 < now - T - 1 →
      TLDExtract_expired
        { fetch := true, cache_file_mtime := now - T - 1, cache_ttl_sec := T,
          extractor := none } now = true) ∧
    (∀ T now : Int,
      TLDExtract_expired
        { fetch := true, cache_file_mtime := now - T + 1, cache_ttl_sec := T,
          extractor := none } now = false) ∧
    (∀ (st : TLDExtractState) (now : Int), st.cache_ttl_sec = 0 →
      TLDExtract_expired st now = false) ∧
    (∀ (T now m0 : Int) (cl : CacheLoad) (fr snap : RuleSet),
      0 < T → 0 < now - T - 1 → fr ≠ [] →
      getTldExtractor
        { fetch := true, cache_file_mtime := m0, cache_ttl_sec := T,
          extractor := none }
        { cacheFileExists := true, cacheFileMtime := now - T - 1, cacheLoad := cl,
          fetchResult := fr, snapshotRules := snap, now := now } =
        Except.ok (fr,
          { fetch := true, cache_file_mtime := now, cache_ttl_sec := T,
            extractor := some fr })) ∧
    (∀ (T now m0 : Int) (r fr snap : RuleSet),
      getTldExtractor
        { fetch := true, cache_file_mtime := m0, cache_ttl_sec := T,
          extractor := none }
        { cacheFileExists := true, cacheFileMtime := now - T + 1,
          cacheLoad := CacheLoad.ok r, fetchResult := fr, snapshotRules := snap,
          now := now } =
        Except.ok (r,
          { fetch := true, cache_file_mtime := now - T + 1, cache_ttl_sec := T,
            extractor := some r })) := by
  refine ⟨expired_iff, ?_, ?_, ?_, ?_, ?_⟩
  · intro T now h1 h2
    exact expired_true_of _ now (show T ≠ 0 by omega)
      (show now - T - 1 ≠ 0 by omega) rfl (show now - (now - T - 1) > T by omega)
  · intro T now
    exact expired_false_of_le _ now (show now - (now - T + 1) ≤ T by omega)
  · intro st now h0
    unfold TLDExtract_expired
    rw [h0]
    simp
  · intro T now m0 cl fr snap hT hm hfr
    have hexp : TLDExtract_expired
        { fetch := true, cache_file_mtime := now - T - 1, cache_ttl_sec := T,
          extractor := none } now = true :=
      expired_true_of _ now (show T ≠ 0 by omega) (show now - T - 1 ≠ 0 by omega)
        rfl (show now - (now - T - 1) > T by omega)
    have hfr2 : fr.isEmpty = false := by
      cases fr with
      | nil => exact absurd rfl hfr
      | cons x xs => rfl
    simp only [getTldExtractor, resolveFresh, fetchOrSnapshot]
    simp [hexp, hfr2]
  · intro T now m0 r fr snap
    have hexp : TLDExtract_expired
        { fetch := true, cache_file_mtime := now - T + 1, cache_ttl_sec := T,
          extractor := none } now = false :=
      expired_false_of_le _ now (show now - (now - T + 1) ≤ T by omega)
    simp only [getTldExtractor, resolveFresh]
    simp [hexp]

/-- C5 witness: `T = 10`, `now = 100`; mtime 89 expires and triggers the
refetch, mtime 91 does not and the cached value is reused. -/
theorem C5_expiry_witness :
    TLDExtract_expired
      { fetch := true, cache_file_mtime := 89, cache_ttl_sec := 10,
        extractor := none } 100 = true ∧
    TLDExtract_expired
      { fetch := true, cache_file_mtime := 91, cache_ttl_sec := 10,
        extractor := none } 100 = false ∧
    getTldExtractor
      { fetch := true, cache_file_mtime := 0, cache_ttl_sec := 10,
        extractor := none }
      { cacheFileExists := true, cacheFileMtime := 89,
        cacheLoad := CacheLoad.ok ["cached"], fetchResult := ["fetched"],
        snapshotRules := ["snap"], now := 100 } =
      Except.ok (["fetched"],
        { fetch := true, cache_file_mtime := 100, cache_ttl_sec := 10,
          extractor := some ["fetched"] }) ∧
    getTldExtractor
      { fetch := true, cache_file_mtime := 0, cache_ttl_sec := 10,
        extractor := none }
      { cacheFileExists := true, cacheFileMtime := 91,
        cacheLoad := CacheLoad.ok ["cached"], fetchResult := ["fetched"],
        snapshotRules := ["snap"], now := 100 } =
      Except.ok (["cached"],
        { fetch := true, cache_file_mtime := 91, cache_ttl_sec := 10,
          extractor := some ["cached"] }) :=
  ⟨C5_expiry.2.1 10 100 (by decide) (by decide),
   C5_expiry.2.2.1 10 100,
   C5_expiry.2.2.2.2.1 10 100 0 (CacheLoad.ok ["cached"]) ["fetched"] ["snap"]
     (by decide) (by decide) (by decide),
   C5_expiry.2.2.2.2.2 10 100 0 ["cached"] ["fetched"] ["snap"]⟩

/-- C6 (amended).  An empty fetch falls back to the bundled snapshot, and --
provided every successful cache-file deserialization yields a non-empty set,
the bundled snapshot is non-empty, and any memoized set is non-empty --
every resolution that returns normally returns a non-empty rule set.  The
proviso is needed: the cache-file branch performs no emptiness check, so a
cache file deserializing to an empty set is used as-is (see the
counterexample). -/
theorem C6_nonempty_resolution (st : TLDExtractState) (env : ResolutionEnv)
    (h1 : ∀ r, env.cacheLoad = CacheLoad.ok r → r ≠ [])
    (h2 : env.snapshotRules ≠ [])
    (h3 : ∀ e, st.extractor = some e → e ≠ []) :
    (∀ tlds st1, getTldExtractor st env = Except.ok (tlds, st1) → tlds ≠ []) ∧
    (st.fetch = false ∨ env.fetchResult = [] →
      (fetchOrSnapshot st env).1 = env.snapshotRules) := by
  constructor
  · intro tlds st1 heq
    unfold getTldExtractor at heq
    cases hext : st.extractor with
    | none =>
      rw [hext] at heq
      have heq2 : resolveFresh st env = Except.ok (tlds, st1) := heq
      exact resolveFresh_nonempty st env h1 h2 tlds st1 heq2
    | some e =>
      rw [hext] at heq
      by_cases hexp : TLDExtract_expired st env.now = true
      · have heq2 : resolveFresh st env = Except.ok (tlds, st1) := by
          have hif : (if TLDExtract_expired st env.now = true then resolveFresh st env
              else Except.ok (e, st)) = Except.ok (tlds, st1) := heq
          rwa [if_pos hexp] at hif
        exact resolveFresh_nonempty st env h1 h2 tlds st1 heq2
      · have heq2 : Except.ok (e, st) =
            (Except.ok (tlds, st1) : Except Unit (RuleSet × TLDExtractState)) := by
          have hif : (if TLDExtract_expired st env.now = true then resolveFresh st env
              else Except.ok (e, st)) = Except.ok (tlds, st1) := heq
          rwa [if_neg hexp] at hif
        have hpair := Except.ok.inj heq2
        have hfst := congrArg Prod.fst hpair
        simp only at hfst
        rw [← hfst]
        exact h3 e hext
  · intro hcond
    simp only [fetchOrSnapshot]
    rcases hcond with hf | hfr
    · rw [hf]
      simp
    · rw [hfr]
      simp

/-- C6 counterexample: a cache file that deserializes to the empty set is
accepted as a successful resolution -- the extractor ends up holding an
empty rule set even though both the fetch result and the snapshot were
non-empty. -/
theorem C6_counterexample :
    getTldExtractor
      { fetch := true, cache_file_mtime := 0, cache_ttl_sec := 0,
        extractor := none }
      { cacheFileExists := true, cacheFileMtime := 50,
        cacheLoad := CacheLoad.ok [], fetchResult := ["com"],
        snapshotRules := ["com"], now := 1000 } =
      Except.ok (([] : RuleSet),
        { fetch := true, cache_file_mtime := 50, cache_ttl_sec := 0,
          extractor := some [] }) := rfl

/-- C6 witness: with no cache file and an empty fetch, the snapshot is
returned, and it is non-empty. -/
theorem C6_nonempty_resolution_witness : (["snap"] : RuleSet) ≠ [] :=
  (C6_nonempty_resolution
      { fetch := true, cache_file_mtime := 0, cache_ttl_sec := 0,
        extractor := none }
      { cacheFileExists := false, cacheFileMtime := 0,
        cacheLoad := CacheLoad.ok ["a"], fetchResult := [],
        snapshotRules := ["snap"], now := 0 }
      (fun r hr => by injection hr with h; rw [← h]; decide)
      (by decide)
      (fun e he => Option.noConfusion he)).1 ["snap"]
    { fetch := true, cache_file_mtime := 0, cache_ttl_sec := 0,
      extractor := some ["snap"] }
    rfl

/-- C7.  Deserializing the serialization of any rule list returns exactly
that list (so membership is preserved): the serialize-then-deserialize round
trip of the cache file is exact. -/
theorem C7_roundtrip (rules : List String) :
    deserializeRules (serializeRules rules) = some rules := by
  induction rules with
  | nil => rfl
  | cons s rest ih =>
    simp only [serializeRules]
    rw [deserializeRules_cons s.data _ rest ih]

/-- C10.  A negative `cache_ttl_sec` is clamped to 0 by `max(cache_ttl_sec,
0)` (line 106): construction succeeds for every fetch value -- even
`fetch=False`, since the configuration check sees the clamped TTL 0 -- and
the resulting TTL-0 instance is never expired. -/
theorem C10_negative_ttl (fetch : Bool) (t : Int) (ht : t < 0) :
    TLDExtract_init fetch t =
      Except.ok
        { fetch := fetch, cache_file_mtime := 0, cache_ttl_sec := 0,
          extractor := none } ∧
    (∀ (st : TLDExtractState) (now : Int), st.cache_ttl_sec = 0 →
      TLDExtract_expired st now = false) := by
  constructor
  · have hmax : max t 0 = 0 := max_eq_right ht.le
    simp only [TLDExtract_init, hmax]
    rw [if_neg]
    intro hc
    exact hc.2 rfl
  · intro st now h0
    unfold TLDExtract_expired
    rw [h0]
    simp

/-- C10 witness: `fetch=False, cache_ttl_sec=-3` constructs successfully. -/
theorem C10_negative_ttl_witness :
    TLDExtract_init false (-3) =
      Except.ok
        { fetch := false, cache_file_mtime := 0, cache_ttl_sec := 0,
          extractor := none } :=
  (C10_negative_ttl false (-3) (by decide)).1
